import Mathlib

/-!
Verification development for the cfn-propgen schema-to-example engine.

The embedding models the Python module `cfn_propgen.generators`:
JSON-shaped values (`JVal`), Python-dict operations on association lists,
the in-place `schema_merge` (exceptions as `Except`, the mutated target
returned as the post-call value of the caller's `target` object), and the
hypothesis-strategy compilation pipeline (`generate_schema_strategy` and
its per-type helpers), with generated values captured by an inductive
membership relation `Mem`.

Two scoping notes on the state model.  Values are modelled by value, so
object-identity aliasing (for example `target[key] = src_schema` making
the target share a sub-object with `src`, or the shallow `schema.copy()`
in the `oneOf` expansion sharing nested dicts) is outside the model; no
property proved here depends on cross-object sharing.  An `Except` error
models a raised exception; the partially mutated state a failing Python
call leaves behind is not observed by any theorem below.
-/

namespace Cfn

/-- JSON-ish values as manipulated by the Python code.  `set` models an
`OrderedSet` (produced only by merging), `obj` an insertion-ordered dict.
Numeric literals are modelled as integers; floating-point values do not
occur in the claims under study. -/
inductive JVal where
  | null
  | bool (b : Bool)
  | int (n : Int)
  | str (s : String)
  | set (l : List JVal)
  | arr (l : List JVal)
  | obj (l : List (String × JVal))

mutual

def jvalDecEq : (a b : JVal) → Decidable (a = b)
  | .null, .null => .isTrue rfl
  | .null, .bool _ => .isFalse nofun
  | .null, .int _ => .isFalse nofun
  | .null, .str _ => .isFalse nofun
  | .null, .set _ => .isFalse nofun
  | .null, .arr _ => .isFalse nofun
  | .null, .obj _ => .isFalse nofun
  | .bool _, .null => .isFalse nofun
  | .bool x, .bool y =>
    if h : x = y then .isTrue (by rw [h]) else .isFalse (fun hh => by cases hh; exact h rfl)
  | .bool _, .int _ => .isFalse nofun
  | .bool _, .str _ => .isFalse nofun
  | .bool _, .set _ => .isFalse nofun
  | .bool _, .arr _ => .isFalse nofun
  | .bool _, .obj _ => .isFalse nofun
  | .int _, .null => .isFalse nofun
  | .int _, .bool _ => .isFalse nofun
  | .int x, .int y =>
    if h : x = y then .isTrue (by rw [h]) else .isFalse (fun hh => by cases hh; exact h rfl)
  | .int _, .str _ => .isFalse nofun
  | .int _, .set _ => .isFalse nofun
  | .int _, .arr _ => .isFalse nofun
  | .int _, .obj _ => .isFalse nofun
  | .str _, .null => .isFalse nofun
  | .str _, .bool _ => .isFalse nofun
  | .str _, .int _ => .isFalse nofun
  | .str x, .str y =>
    if h : x = y then .isTrue (by rw [h]) else .isFalse (fun hh => by cases hh; exact h rfl)
  | .str _, .set _ => .isFalse nofun
  | .str _, .arr _ => .isFalse nofun
  | .str _, .obj _ => .isFalse nofun
  | .set _, .null => .isFalse nofun
  | .set _, .bool _ => .isFalse nofun
  | .set _, .int _ => .isFalse nofun
  | .set _, .str _ => .isFalse nofun
  | .set x, .set y =>
    match jvalListDecEq x y with
    | .isTrue h => .isTrue (by rw [h])
    | .isFalse h => .isFalse (fun hh => by cases hh; exact h rfl)
  | .set _, .arr _ => .isFalse nofun
  | .set _, .obj _ => .isFalse nofun
  | .arr _, .null => .isFalse nofun
  | .arr _, .bool _ => .isFalse nofun
  | .arr _, .int _ => .isFalse nofun
  | .arr _, .str _ => .isFalse nofun
  | .arr _, .set _ => .isFalse nofun
  | .arr x, .arr y =>
    match jvalListDecEq x y with
    | .isTrue h => .isTrue (by rw [h])
    | .isFalse h => .isFalse (fun hh => by cases hh; exact h rfl)
  | .arr _, .obj _ => .isFalse nofun
  | .obj _, .null => .isFalse nofun
  | .obj _, .bool _ => .isFalse nofun
  | .obj _, .int _ => .isFalse nofun
  | .obj _, .str _ => .isFalse nofun
  | .obj _, .set _ => .isFalse nofun
  | .obj _, .arr _ => .isFalse nofun
  | .obj x, .obj y =>
    match jvalObjDecEq x y with
    | .isTrue h => .isTrue (by rw [h])
    | .isFalse h => .isFalse (fun hh => by cases hh; exact h rfl)

def jvalListDecEq : (a b : List JVal) → Decidable (a = b)
  | [], [] => .isTrue rfl
  | [], _ :: _ => .isFalse nofun
  | _ :: _, [] => .isFalse nofun
  | x :: xs, y :: ys =>
    match jvalDecEq x y with
    | .isFalse h => .isFalse (fun hh => by cases hh; exact h rfl)
    | .isTrue h1 =>
      match jvalListDecEq xs ys with
      | .isTrue h2 => .isTrue (by rw [h1, h2])
      | .isFalse h => .isFalse (fun hh => by cases hh; exact h rfl)

def jvalObjDecEq : (a b : List (String × JVal)) → Decidable (a = b)
  | [], [] => .isTrue rfl
  | [], _ :: _ => .isFalse nofun
  | _ :: _, [] => .isFalse nofun
  | (k, x) :: xs, (l, y) :: ys =>
    if hk : k = l then
      match jvalDecEq x y with
      | .isFalse h => .isFalse (fun hh => by cases hh; exact h rfl)
      | .isTrue h1 =>
        match jvalObjDecEq xs ys with
        | .isTrue h2 => .isTrue (by rw [hk, h1, h2])
        | .isFalse h => .isFalse (fun hh => by cases hh; exact h rfl)
    else .isFalse (fun hh => by cases hh; exact hk rfl)

end

instance : DecidableEq JVal := jvalDecEq

instance [DecidableEq ε] [DecidableEq α] : DecidableEq (Except ε α)
  | .ok a, .ok b =>
    if h : a = b then .isTrue (by rw [h]) else .isFalse (fun hh => by cases hh; exact h rfl)
  | .ok _, .error _ => .isFalse nofun
  | .error _, .ok _ => .isFalse nofun
  | .error e, .error e' =>
    if h : e = e' then .isTrue (by rw [h]) else .isFalse (fun hh => by cases hh; exact h rfl)

/-- A Python dict as an insertion-ordered association list. -/
abbrev Dict := List (String × JVal)

/-- `d[k]` / `d.get(k)`: first binding of `k`, if any. -/
def Dict.get : Dict → String → Option JVal
  | [], _ => none
  | (k', v) :: rest, k => if k' = k then some v else Dict.get rest k

/-- `d[k] = v`: update the existing binding in place, else append at the end
(Python dict assignment semantics). -/
def Dict.set : Dict → String → JVal → Dict
  | [], k, v => [(k, v)]
  | (k', v') :: rest, k, v =>
    if k' = k then (k', v) :: rest else (k', v') :: Dict.set rest k v

/-- `d.pop(k)` ignoring the returned value (with a missing key tolerated,
as in `try: d.pop(k) except KeyError: pass`). -/
def Dict.erase : Dict → String → Dict
  | [], _ => []
  | (k', v') :: rest, k =>
    if k' = k then Dict.erase rest k else (k', v') :: Dict.erase rest k

/-- Python truthiness of a JSON value. -/
def JVal.truthy : JVal → Bool
  | .null => false
  | .bool b => b
  | .int n => n != 0
  | .str s => s != ""
  | .set l => !l.isEmpty
  | .arr l => !l.isEmpty
  | .obj l => !l.isEmpty

/-- Whether the value is hashable in Python (containers are not). -/
def JVal.hashable : JVal → Bool
  | .set _ => false
  | .arr _ => false
  | .obj _ => false
  | _ => true

def JVal.isObj : JVal → Bool
  | .obj _ => true
  | _ => false

/-- Python `a or b` over optional lookup results: a present truthy value
short-circuits, otherwise the right operand is used as-is. -/
def pyOrOpt (a b : Option JVal) : Option JVal :=
  match a with
  | some v => if v.truthy then some v else b
  | none => b

/-- Python `==` on values reached by the merge's conflict check.  Booleans
compare equal to the corresponding integers (`True == 1`); everything else
is modelled structurally (Python's order-insensitive dict/set equality and
numeric coercions nested inside containers are outside this model — the
claims only exercise scalar and mapping operands). -/
def pyEqB (a b : JVal) : Bool :=
  match a, b with
  | .bool x, .int n => (if x then (1 : Int) else 0) == n
  | .int n, .bool x => n == (if x then (1 : Int) else 0)
  | _, _ => decide (a = b)

/-- First-occurrence deduplication with an accumulator of already-seen
elements; models `OrderedSet` construction order. -/
def dedupFirstAux [DecidableEq α] : List α → List α → List α
  | _, [] => []
  | seen, a :: l =>
    if a ∈ seen then dedupFirstAux seen l else a :: dedupFirstAux (a :: seen) l

def dedupFirst [DecidableEq α] (l : List α) : List α := dedupFirstAux [] l

/-- Errors escaping `schema_merge`: `TypeError` (caught by the recursive
dispatch), `ConstraintError` carrying exactly the message the Python
constructor stores, and exhaustion of the modelled recursion depth. -/
inductive MErr where
  | typeErr
  | constraintErr (message : String)
  | depth
  deriving DecidableEq, Repr

/-- The `path` argument of `schema_merge`: a tuple in most calls, but the
string `""` in the `oneOf`/`anyOf` expansion. -/
inductive MPath where
  | tup (l : List String)
  | strP (s : String)
  deriving DecidableEq, Repr

/-- `next_path = path + (key,)`: appending a 1-tuple to a string raises
`TypeError` (which propagates out of the current `schema_merge` frame). -/
def pathAppend : MPath → String → Except MErr MPath
  | .tup l, k => .ok (.tup (l ++ [k]))
  | .strP _, _ => .error .typeErr

/-- `to_set(value)`: `OrderedSet(value)` for lists and ordered sets,
`OrderedSet([value])` otherwise; unhashable elements raise `TypeError`. -/
def toSet : JVal → Except MErr (List JVal)
  | .arr l => if l.all JVal.hashable then .ok (dedupFirst l) else .error .typeErr
  | .set l => .ok l
  | v => if v.hashable then .ok [v] else .error .typeErr

/-- Python `set(x)`: iterate `x` and collect; strings iterate into
single-character strings and dicts into their keys; non-iterables raise
`TypeError`. -/
def pySet : JVal → Except MErr (List JVal)
  | .arr l => if l.all JVal.hashable then .ok (dedupFirst l) else .error .typeErr
  | .set l => .ok l
  | .str s => .ok (dedupFirst (s.data.map (fun c => JVal.str (String.mk [c]))))
  | .obj l => .ok (dedupFirst (l.map (fun p => JVal.str p.1)))
  | _ => .error .typeErr

def allStrings : List JVal → Option (List String)
  | [] => some []
  | .str s :: rest => (allStrings rest).map (s :: ·)
  | _ => none

/-- Lexicographic code-point comparison of character lists: Python's
`str <=` ordering. -/
def charsLe : List Char → List Char → Bool
  | [], _ => true
  | _ :: _, [] => false
  | a :: as, b :: bs => if a = b then charsLe as bs else decide (a < b)

/-- Python `a <= b` on strings (code-point lexicographic). -/
def pyStrLeB (a b : String) : Bool := charsLe a.data b.data

/-- `sorted(set(a) | set(b))` as used by the `required` branch; `sorted`
over a homogeneous list of strings (Python's mixed-type ordering raises
`TypeError`; only the all-strings case is modelled as comparable). -/
def pySortedUnion (a b : JVal) : Except MErr JVal :=
  match pySet a with
  | .error e => .error e
  | .ok sa =>
    match pySet b with
    | .error e => .error e
    | .ok sb =>
      match allStrings (dedupFirst (sa ++ sb)) with
      | some strs =>
        .ok (.arr ((List.insertionSort (fun x y => pyStrLeB x y = true) strs).map JVal.str))
      | none => .error .typeErr

/-- One iteration of `schema_merge`'s `for key, src_schema in src.items()`
loop, acting on the current state `t` of the (mutated-in-place) target
dict.  `recm` is the recursive `schema_merge` call.  Mirrors the source:
the `$ref`/`type` unified lookup with Python `or` truthiness, `KeyError`
handled by plain insertion, the recursive merge with `TypeError`-driven
dispatch into the `$ref`/`type` union, the `required` union, the
non-mergeable conflict check, and source-wins override. -/
def mergeKeyStep (recm : JVal → JVal → MPath → Except MErr JVal)
    (t : Dict) (key : String) (srcSchema : JVal) (path : MPath) :
    Except MErr Dict :=
  let tLook : Option JVal :=
    if key = "$ref" ∨ key = "type" then
      pyOrOpt (Dict.get t key) (pyOrOpt (Dict.get t "type") (Dict.get t "$ref"))
    else Dict.get t key
  match tLook with
  | none => .ok (Dict.set t key srcSchema)
  | some targetSchema =>
    match pathAppend path key with
    | .error _ => .error .typeErr
    | .ok nextPath =>
      match recm targetSchema srcSchema nextPath with
      | .ok merged => .ok (Dict.set t key merged)
      | .error .typeErr =>
        if key = "type" ∨ key = "$ref" then
          match toSet srcSchema with
          | .error e => .error e
          | .ok srcSet =>
            let afterType : Except MErr Dict :=
              match Dict.get t "type" with
              | some tv =>
                match toSet tv with
                | .ok ts => .ok (Dict.set t "type" (.set (dedupFirst (ts ++ srcSet))))
                | .error _ =>
                  match toSet targetSchema with
                  | .ok tgs => .ok (Dict.set t "type" (.set (dedupFirst (tgs ++ srcSet))))
                  | .error e => .error e
              | none =>
                match toSet targetSchema with
                | .ok tgs => .ok (Dict.set t "type" (.set (dedupFirst (tgs ++ srcSet))))
                | .error e => .error e
            match afterType with
            | .ok t1 => .ok (Dict.erase t1 "$ref")
            | .error e => .error e
        else if key = "required" then
          match pySortedUnion targetSchema srcSchema with
          | .ok u => .ok (Dict.set t key u)
          | .error e => .error e
        else if (key = "uniqueItems" ∨ key = "insertionOrder") ∧ pyEqB targetSchema srcSchema = false then
          .error (.constraintErr "constraint error TODO")
        else .ok (Dict.set t key srcSchema)
      | .error e => .error e

/-- Fold the merge loop over the source dict's entries, threading the
target's state and aborting on the first uncaught exception. -/
def exFoldlM (f : β → α → Except ε β) : β → List α → Except ε β
  | b, [] => .ok b
  | b, a :: l =>
    match f b a with
    | .ok b' => exFoldlM f b' l
    | .error e => .error e

/-- One unfolding of `schema_merge` given its recursive calls `recm`:
non-mapping operands raise `TypeError`; otherwise the source's entries are
merged into the target dict one key at a time. -/
def schemaMergeF (recm : JVal → JVal → MPath → Except MErr JVal)
    (target src : JVal) (path : MPath) : Except MErr JVal :=
  match target, src with
  | .obj t, .obj s =>
    match exFoldlM (fun acc kv => mergeKeyStep recm acc kv.1 kv.2 path) t s with
    | .ok t' => .ok (.obj t')
    | .error e => .error e
  | _, _ => .error .typeErr

/-- `schema_merge(target, src, path)`, depth-indexed (Python recursion is
bounded by the interpreter's recursion limit).  The Python function merges
`src` into `target` IN PLACE and returns `target` itself; in this pure
embedding the returned value is the post-call value of the caller's
`target` object, and an error result corresponds to the raised exception. -/
def schemaMerge : Nat → JVal → JVal → MPath → Except MErr JVal
  | 0 => fun _ _ _ => .error .depth
  | Nat.succ f => schemaMergeF (schemaMerge f)

/-- Hypothesis strategy descriptors as built by `ResourceGenerator`: each
constructor records one strategy combinator used by the source together
with the arguments the source passes to it. -/
inductive Strat where
  | justS (v : JVal)
  | oneOfS (l : List Strat)
  | booleansS
  | integersS (lo hi : Option Int)
  | floatsS (lo : Option JVal) (exMin : Bool) (hi : Option JVal) (exMax : Bool)
  | textS (minLen : Int) (maxLen : Option Int)
  | fromRegexS (r : String)
  | nothingS
  | listsS (s : Strat) (minI : Int) (maxI : Option Int)
  | tuplesS (l : List Strat)
  | fixedDictS (l : List (String × Strat))

/-- Errors escaping strategy compilation: merge failures, the `KeyError`
from the `STRING_FORMATS` table, unresolved `$ref`, exhausted recursion
depth, and schema shapes whose Python evaluation raises (modelled
coarsely as `badSchema`). -/
inductive GErr where
  | mergeE (e : MErr)
  | keyErr (k : String)
  | resolutionErr (r : String)
  | badSchema
  | depth
  deriving DecidableEq, Repr

/-- The `STRING_FORMATS` table of `cfn_propgen.generators` (regexes kept
verbatim; `\x7b`/`\x7d` encode the brace characters). -/
def STRING_FORMATS : List (String × String) :=
  [("arn", "^arn:aws(-(cn|gov))?:[a-z-]+:(([a-z]+-)+[0-9])?:([0-9]\x7b12\x7d)?:[^.]+$"),
   ("uri", "^(https?|ftp|file)://[0-9a-zA-Z]([-.\\w]*[0-9a-zA-Z])(:[0-9]*)*([?/#].*)?$"),
   ("date-time", "^(\\d\x7b4\x7d)-(0[1-9]|1[0-2])-(\\d\x7b2\x7d)T(?:[01]\\d|2[0123]):(?:[0-5]\\d):(?:[0-5]\\d)(?:\\.\\d+)?(?:Z|[+-](?:[01]\\d|2[0123]):[0-5]\\d)$"),
   ("date", "^(\\d\x7b4\x7d)-(0[1-9]|1[0-2])-(\\d\x7b2\x7d)$"),
   ("time", "^(?:[01]\\d|2[0123]):(?:[0-5]\\d):(?:[0-5]\\d)(?:\\.\\d+)?(?:Z|[+-](?:[01]\\d|2[0123]):[0-5]\\d)$"),
   ("email", "^.+@[^\\.].*\\.[a-z]\x7b2,\x7d$")]

def lookupFormat : List (String × String) → String → Option String
  | [], _ => none
  | (k, v) :: rest, f => if k = f then some v else lookupFormat rest f

/-- `terminate_regex`: rewrite a leading `^` to `\A` and a trailing `$`
to `\Z`. -/
def terminateRegex (r : String) : String :=
  let r1 := if r.startsWith "^" then "\\A" ++ r.drop 1 else r
  if r1.endsWith "$" then r1.dropRight 1 ++ "\\Z" else r1

/-- `_integer_minimum`: `minimum` if present, else `exclusiveMinimum + 1`
if present, else unbounded.  A present non-integer value makes the
strategy construction fail. -/
def integerMinimum (d : Dict) : Except GErr (Option Int) :=
  match Dict.get d "minimum" with
  | some (.int n) => .ok (some n)
  | some _ => .error .badSchema
  | none =>
    match Dict.get d "exclusiveMinimum" with
    | some (.int n) => .ok (some (n + 1))
    | some _ => .error .badSchema
    | none => .ok none

/-- `_integer_maximum`: `maximum` if present, else `exclusiveMaximum - 1`
if present, else unbounded. -/
def integerMaximum (d : Dict) : Except GErr (Option Int) :=
  match Dict.get d "maximum" with
  | some (.int n) => .ok (some n)
  | some _ => .error .badSchema
  | none =>
    match Dict.get d "exclusiveMaximum" with
    | some (.int n) => .ok (some (n - 1))
    | some _ => .error .badSchema
    | none => .ok none

/-- `generate_integer_strategy`: `integers(min_value, max_value)` with the
translated bounds (`multipleOf` is only logged, never enforced). -/
def generateIntegerStrategy (d : Dict) : Except GErr Strat :=
  match integerMinimum d with
  | .error e => .error e
  | .ok lo =>
    match integerMaximum d with
    | .error e => .error e
    | .ok hi => .ok (.integersS lo hi)

/-- `generate_float_strategy`: bounds with exclusivity flags; an absent
bound becomes an exclusive infinity, encoded here as `none`. -/
def generateFloatStrategy (d : Dict) : Strat :=
  let lo := match Dict.get d "minimum" with
    | some v => (some v, false)
    | none => (Dict.get d "exclusiveMinimum", true)
  let hi := match Dict.get d "maximum" with
    | some v => (some v, false)
    | none => (Dict.get d "exclusiveMaximum", true)
  .floatsS lo.1 lo.2 hi.1 hi.2

/-- `generate_string_strategy`: `format` (a `STRING_FORMATS` lookup that
raises `KeyError` for unknown names) takes precedence over `pattern`
(anchored via `terminate_regex`), which takes precedence over
`minLength`/`maxLength`-bounded text. -/
def generateStringStrategy (d : Dict) : Except GErr Strat :=
  match Dict.get d "format" with
  | some (.str fs) =>
    match lookupFormat STRING_FORMATS fs with
    | some rgx => .ok (.fromRegexS rgx)
    | none => .error (.keyErr fs)
  | some _ => .error .badSchema
  | none =>
    match Dict.get d "pattern" with
    | some (.str p) => .ok (.fromRegexS (terminateRegex p))
    | some _ => .error .badSchema
    | none =>
      match Dict.get d "minLength" with
      | some (.int n) => textWithMin d n
      | some _ => .error .badSchema
      | none => textWithMin d 0
where
  textWithMin (d : Dict) (minLen : Int) : Except GErr Strat :=
    match Dict.get d "maxLength" with
    | some (.int m) => .ok (.textS minLen (some m))
    | some _ => .error .badSchema
    | none => .ok (.textS minLen none)

/-- Map a list through an `Except`-valued function, aborting on the first
error (the order in which the source builds sub-strategies). -/
def exMapM (f : α → Except ε β) : List α → Except ε (List β)
  | [] => .ok []
  | a :: l =>
    match f a with
    | .error e => .error e
    | .ok b =>
      match exMapM f l with
      | .error e => .error e
      | .ok bs => .ok (b :: bs)

/-- `generate_object_strategy`: no `properties` key means `builds(dict)`
(always the empty mapping); otherwise `fixed_dictionaries` over the
per-property compiled strategies. -/
def generateObjectStrategy (recg : JVal → Except GErr (Strat × JVal)) (d : Dict) :
    Except GErr Strat :=
  match Dict.get d "properties" with
  | none => .ok (.justS (.obj []))
  | some (.obj props) =>
    match exMapM (fun p => match recg p.2 with
        | .ok sp => .ok (p.1, sp.1)
        | .error e => .error e) props with
    | .ok comp => .ok (.fixedDictS comp)
    | .error e => .error e
  | some _ => .error .badSchema

def arrMinItems (d : Dict) : Except GErr Int :=
  match Dict.get d "minItems" with
  | none => .ok 0
  | some (.int n) => .ok n
  | some _ => .error .badSchema

def arrMaxItems (d : Dict) : Except GErr (Option Int) :=
  match Dict.get d "maxItems" with
  | none => .ok none
  | some (.int n) => .ok (some n)
  | some _ => .error .badSchema

/-- `generate_array_strategy`: a sequence-shaped `items` yields `tuples`
(one strategy per position, `minItems`/`maxItems` unused); a
mapping-shaped `items` (or `contains` as fallback) yields `lists` bounded
by `minItems` (default 0) and `maxItems` (default unbounded); with
neither key the source returns `lists(nothing())`, which only ever
generates the empty list. -/
def generateArrayStrategy (recg : JVal → Except GErr (Strat × JVal)) (d : Dict) :
    Except GErr Strat :=
  match (match Dict.get d "items" with
         | some it => some it
         | none => Dict.get d "contains") with
  | none => .ok (.listsS .nothingS 0 none)
  | some (.arr subs) =>
    match exMapM (fun sc => match recg sc with
        | .ok sp => .ok sp.1
        | .error e => .error e) subs with
    | .ok l => .ok (.tuplesS l)
    | .error e => .error e
  | some (.obj props) =>
    match recg (.obj props) with
    | .error e => .error e
    | .ok (st, _) =>
      match arrMinItems d with
      | .error e => .error e
      | .ok minI =>
        match arrMaxItems d with
        | .error e => .error e
        | .ok maxI => .ok (.listsS st minI maxI)
  | some _ => .error .badSchema

/-- `enum` handling inside `generate_primitive_strategy`: `one_of` over
`just(item)` for each item produced by iterating the value (strings
iterate into characters, dicts into keys; non-iterables raise). -/
def enumStrategy : JVal → Except GErr Strat
  | .arr l => .ok (.oneOfS (l.map Strat.justS))
  | .set l => .ok (.oneOfS (l.map Strat.justS))
  | .str s => .ok (.oneOfS (s.data.map (fun c => Strat.justS (.str (String.mk [c])))))
  | .obj l => .ok (.oneOfS (l.map (fun p => Strat.justS (.str p.1))))
  | _ => .error .badSchema

/-- `generate_primitive_strategy`: `const` wins, then `enum`, then the
`type`-dispatched generator with `object` as the default for an absent or
non-string (for example merged-set) `type`. -/
def generatePrimitiveStrategy (recg : JVal → Except GErr (Strat × JVal)) (d : Dict) :
    Except GErr Strat :=
  match Dict.get d "const" with
  | some c => .ok (.justS c)
  | none =>
    match Dict.get d "enum" with
    | some ev => enumStrategy ev
    | none =>
      match Dict.get d "type" with
      | some (.str t) =>
        if t = "integer" then generateIntegerStrategy d
        else if t = "number" then .ok (generateFloatStrategy d)
        else if t = "boolean" then .ok .booleansS
        else if t = "string" then generateStringStrategy d
        else if t = "array" then generateArrayStrategy recg d
        else generateObjectStrategy recg d
      | _ => generateObjectStrategy recg d

/-- `generate_one_of_strategy`: pop the combinator key, merge a (shallow)
copy of the node with each branch using the string path `""`, compile
each merged result, and wrap the alternatives in `one_of`.  Returns the
strategy together with the post-call state of the node (which has lost
the combinator key). -/
def genCombinator (recg : JVal → Except GErr (Strat × JVal))
    (mergef : JVal → JVal → MPath → Except MErr JVal)
    (d : Dict) (comb : String) (cv : JVal) : Except GErr (Strat × JVal) :=
  match cv with
  | .arr branches =>
    let d1 := Dict.erase d comb
    match exMapM (fun br =>
        match mergef (.obj d1) br (.strP "") with
        | .ok m =>
          match recg m with
          | .ok (st, _) => .ok st
          | .error e => .error e
        | .error e => .error (.mergeE e)) branches with
    | .ok l => .ok (.oneOfS l, .obj d1)
    | .error e => .error e
  | _ => .error (.mergeE .typeErr)

/-- One unfolding of `generate_schema_strategy`: `allOf` (popped, then
each branch merged into the node in place, then recursion on the mutated
node), then `oneOf`, `anyOf`, `$ref`, then primitive compilation.  The
second component of the result is the post-call state of the argument
node, reflecting the in-place mutations the source performs on it. -/
def genStrategyF (recg : JVal → Except GErr (Strat × JVal))
    (mergef : JVal → JVal → MPath → Except MErr JVal)
    (resolve : String → Option JVal) (schema : JVal) : Except GErr (Strat × JVal) :=
  match schema with
  | .obj d =>
    match Dict.get d "allOf" with
    | some (.arr branches) =>
      match exFoldlM (fun nd br => mergef nd br (.tup [])) (JVal.obj (Dict.erase d "allOf"))
          branches with
      | .ok merged => recg merged
      | .error e => .error (.mergeE e)
    | some _ => .error (.mergeE .typeErr)
    | none =>
      match Dict.get d "oneOf" with
      | some cv => genCombinator recg mergef d "oneOf" cv
      | none =>
        match Dict.get d "anyOf" with
        | some cv => genCombinator recg mergef d "anyOf" cv
        | none =>
          match Dict.get d "$ref" with
          | some (.str r) =>
            match resolve r with
            | some node =>
              match recg node with
              | .ok (st, _) => .ok (st, .obj d)
              | .error e => .error e
            | none => .error (.resolutionErr r)
          | some _ => .error .badSchema
          | none =>
            match generatePrimitiveStrategy recg d with
            | .ok st => .ok (st, .obj d)
            | .error e => .error e
  | _ => .error .badSchema

/-- `generate_schema_strategy`, depth-indexed.  Returns the compiled
strategy and the post-call state of the argument node. -/
def genStrategy (resolve : String → Option JVal) : Nat → JVal → Except GErr (Strat × JVal)
  | 0 => fun _ => .error .depth
  | Nat.succ f => genStrategyF (genStrategy resolve f) (schemaMerge f) resolve

/-- Intra-document JSON-pointer resolution (`RefResolver.from_schema`):
`#` is the schema root and `#/a/b` walks mapping keys. -/
def walkPointer : JVal → List String → Option JVal
  | v, [] => some v
  | .obj d, seg :: rest =>
    match Dict.get d seg with
    | some v => walkPointer v rest
    | none => none
  | _, _ :: _ => none

def resolvePointer (root : JVal) (r : String) : Option JVal :=
  if r = "#" then some root
  else if r.startsWith "#/" then walkPointer root ((r.drop 2).splitOn "/")
  else none

/-- The document-state effect of `Generator.for_type`: look up the
requested type's schema node, compile a strategy for it (mutating the
node in place), and observe the resulting document.  Cross-type JSON
values in the loaded document share no structure, so the call's mutations
are confined to the entry of the requested type. -/
def forTypeDocAfter (fuel : Nat) (doc : Dict) (t : String) : Except GErr Dict :=
  match Dict.get doc t with
  | none => .error (.keyErr t)
  | some schema =>
    match genStrategy (resolvePointer schema) fuel schema with
    | .ok (_, node) => .ok (Dict.set doc t node)
    | .error e => .error e

/-- The values a compiled strategy can generate.  The leaf strategies
whose value sets live outside the JSON model are parameters: `fm` for
`floats(...)` (floating point), `rm` for `from_regex(...)` (regex
matching), and `co` for the admissible characters of `text(...)`
(Unicode-category filtering); every claim proved below holds for all
instantiations of these. -/
inductive Mem (fm : Option JVal → Bool → Option JVal → Bool → JVal → Prop)
    (rm : String → JVal → Prop) (co : Char → Prop) : Strat → JVal → Prop where
  | justM (v : JVal) : Mem fm rm co (.justS v) v
  | oneOfHead (s : Strat) (rest : List Strat) (v : JVal) :
      Mem fm rm co s v → Mem fm rm co (.oneOfS (s :: rest)) v
  | oneOfTail (s : Strat) (rest : List Strat) (v : JVal) :
      Mem fm rm co (.oneOfS rest) v → Mem fm rm co (.oneOfS (s :: rest)) v
  | boolM (b : Bool) : Mem fm rm co .booleansS (.bool b)
  | intM (lo hi : Option Int) (n : Int) :
      (∀ m, lo = some m → m ≤ n) → (∀ m, hi = some m → n ≤ m) →
      Mem fm rm co (.integersS lo hi) (.int n)
  | floatM (lo : Option JVal) (em : Bool) (hi : Option JVal) (eM : Bool) (v : JVal) :
      fm lo em hi eM v → Mem fm rm co (.floatsS lo em hi eM) v
  | textM (minLen : Int) (maxLen : Option Int) (s : String) :
      minLen ≤ (s.length : Int) → (∀ m, maxLen = some m → (s.length : Int) ≤ m) →
      (∀ c ∈ s.data, co c) → Mem fm rm co (.textS minLen maxLen) (.str s)
  | regexM (r : String) (v : JVal) : rm r v → Mem fm rm co (.fromRegexS r) v
  | listsM (s : Strat) (minI : Int) (maxI : Option Int) (l : List JVal) :
      (∀ x ∈ l, Mem fm rm co s x) → minI ≤ (l.length : Int) →
      (∀ m, maxI = some m → (l.length : Int) ≤ m) →
      Mem fm rm co (.listsS s minI maxI) (.arr l)
  | tuplesNil : Mem fm rm co (.tuplesS []) (.arr [])
  | tuplesCons (s : Strat) (ss : List Strat) (v : JVal) (vs : List JVal) :
      Mem fm rm co s v → Mem fm rm co (.tuplesS ss) (.arr vs) →
      Mem fm rm co (.tuplesS (s :: ss)) (.arr (v :: vs))
  | fixedNil : Mem fm rm co (.fixedDictS []) (.obj [])
  | fixedCons (k : String) (s : Strat) (ss : List (String × Strat)) (v : JVal)
      (vs : List (String × JVal)) :
      Mem fm rm co s v → Mem fm rm co (.fixedDictS ss) (.obj vs) →
      Mem fm rm co (.fixedDictS ((k, s) :: ss)) (.obj ((k, v) :: vs))

/-! Helper lemmas. -/

theorem schemaMerge_typeErr (f : Nat) (hf : 1 ≤ f) (a b : JVal) (p : MPath)
    (h : ¬(a.isObj = true ∧ b.isObj = true)) :
    schemaMerge f a b p = .error .typeErr := by
  obtain ⟨g, rfl⟩ : ∃ g, f = g + 1 := ⟨f - 1, by omega⟩
  cases a <;> cases b <;> simp_all [schemaMerge, schemaMergeF, JVal.isObj]

theorem Dict.get_set_ne (d : Dict) (t t' : String) (v : JVal) (h : t' ≠ t) :
    Dict.get (Dict.set d t v) t' = Dict.get d t' := by
  induction d with
  | nil =>
    simp only [Dict.set, Dict.get]
    rw [if_neg (fun hh => h hh.symm)]
  | cons p rest ih =>
    obtain ⟨k1, v1⟩ := p
    by_cases hk : k1 = t
    · subst hk
      simp only [Dict.set, if_pos rfl, Dict.get]
      rw [if_neg (fun hh => h hh.symm), if_neg (fun hh => h hh.symm)]
    · simp only [Dict.set, if_neg hk, Dict.get]
      by_cases hk' : k1 = t' <;> simp [hk', ih]

/-! Claims C1 to C4: mutation behaviour of `schema_merge` and the
combinator expansion, and the non-mergeable-key conflict check. -/

/-- Claim C1, counterexample: expanding `allOf` for a resource type pops
the combinator key from, and merges the branch into, the schema node
stored in the shared document itself, so after one `for_type` call the
document differs from its initial state — the document is not treated as
read-only and merge does not operate only on working copies. -/
theorem c1_counterexample :
    forTypeDocAfter 3 [("A", .obj [("allOf", .arr [.obj [("a", .int 1)]])])] "A"
      = .ok [("A", .obj [("a", .int 1)])]
    ∧ ([("A", JVal.obj [("a", .int 1)])] : Dict)
      ≠ [("A", .obj [("allOf", .arr [.obj [("a", .int 1)]])])] := by
  exact ⟨by decide, by decide⟩

/-- Claim C1, amended: a `for_type` call mutates the requested type's own
schema node in place (combinator keys are popped from it and `allOf`
branches merged into it), but the mutation is confined to that type's
entry: the document state seen by a subsequent call for any other type is
unchanged. -/
theorem c1_amended (fuel : Nat) (doc : Dict) (t t' : String) (d' : Dict)
    (hne : t' ≠ t) (h : forTypeDocAfter fuel doc t = .ok d') :
    Dict.get d' t' = Dict.get doc t' := by
  unfold forTypeDocAfter at h
  cases hdoc : Dict.get doc t with
  | none => simp only [hdoc] at h; exact Except.noConfusion h
  | some sch =>
    simp only [hdoc] at h
    cases hgen : genStrategy (resolvePointer sch) fuel sch with
    | error e => simp only [hgen] at h; exact Except.noConfusion h
    | ok pr =>
      obtain ⟨st, node⟩ := pr
      simp only [hgen] at h
      cases h
      exact Dict.get_set_ne doc t t' node hne

theorem c1_amended_witness :
    Dict.get [("A", JVal.obj [("a", .int 1)]), ("B", .obj [])] "B"
      = Dict.get [("A", JVal.obj [("allOf", .arr [.obj [("a", .int 1)]])]), ("B", .obj [])] "B" :=
  c1_amended 3 [("A", .obj [("allOf", .arr [.obj [("a", .int 1)]])]), ("B", .obj [])] "A" "B"
    [("A", .obj [("a", .int 1)]), ("B", .obj [])] (by decide) (by decide)

/-- Claim C2, counterexample: `schema_merge` merges `src` into `target` in
place and returns `target` itself, so after `schema_merge({'foo': 'a'},
{'foo': 'b'}, ())` the caller's target object holds `{'foo': 'b'}`, a
value different from the one it held before the call — the function does
mutate its first input in a caller-visible way, and the returned node is
the mutated target rather than a node distinct from both inputs. -/
theorem c2_counterexample :
    schemaMerge 2 (.obj [("foo", .str "a")]) (.obj [("foo", .str "b")]) (.tup [])
      = .ok (.obj [("foo", .str "b")])
    ∧ (JVal.obj [("foo", .str "b")]) ≠ (JVal.obj [("foo", .str "a")]) := by
  exact ⟨by decide, by decide⟩

/-- Claim C2, amended: `schema_merge` merges `src` into `target` in place
and returns the mutated target (not a new node): for any target fragment
already holding a non-mapping value under a plain scalar key that `src`
also defines, the caller's target afterwards holds its old bindings with
that key overridden by the source operand's value. -/
theorem c2_amended (fuel : Nat) (hf : 2 ≤ fuel) (t : Dict) (k : String) (a b : JVal)
    (p : List String) (ha : Dict.get t k = some a)
    (hk1 : ¬(k = "$ref" ∨ k = "type")) (hk2 : k ≠ "required")
    (hk3 : ¬(k = "uniqueItems" ∨ k = "insertionOrder"))
    (hab : ¬(a.isObj = true ∧ b.isObj = true)) :
    schemaMerge fuel (.obj t) (.obj [(k, b)]) (.tup p) = .ok (.obj (Dict.set t k b)) := by
  obtain ⟨g, rfl⟩ : ∃ g, fuel = g + 2 := ⟨fuel - 2, by omega⟩
  have hrec := schemaMerge_typeErr (g + 1) (by omega) a b (.tup (p ++ [k])) hab
  show schemaMergeF (schemaMerge (g + 1)) _ _ _ = _
  simp only [schemaMergeF, exFoldlM, mergeKeyStep]
  rw [if_neg hk1, ha]
  simp only [pathAppend, hrec]
  rw [if_neg (fun hh : k = "type" ∨ k = "$ref" => hk1 hh.symm), if_neg hk2,
    if_neg (fun hh : (k = "uniqueItems" ∨ k = "insertionOrder") ∧ pyEqB a b = false => hk3 hh.1)]

theorem c2_amended_witness :
    schemaMerge 2 (.obj [("bar", .int 7), ("foo", .str "a")]) (.obj [("foo", .str "c")]) (.tup [])
      = .ok (.obj (Dict.set [("bar", .int 7), ("foo", .str "a")] "foo" (.str "c"))) :=
  c2_amended 2 (by decide) [("bar", .int 7), ("foo", .str "a")] "foo" (.str "a") (.str "c") []
    (by decide) (by decide) (by decide) (by decide) (by decide)

/-- Claim C3: the raised `ConstraintError` is built with the format
template, the path, the key and both conflicting values as constructor
arguments, but `ConstraintError.__init__` discards them (the formatting
call is commented out with a TODO) and stores the constant message
`"constraint error TODO"`, so the surfaced error contains neither the
offending key path nor the conflicting values. -/
theorem c3_constraint_message :
    schemaMerge 2 (.obj [("uniqueItems", .bool true)])
        (.obj [("uniqueItems", .bool false)]) (.tup [])
      = .error (.constraintErr "constraint error TODO") := by decide

/-- Claim C4, counterexample: when both operands hold mapping-shaped
values under `uniqueItems`, the recursive merge succeeds (the dispatch
never reaches the conflict check), so two different `uniqueItems` values
merge without a `ConstraintError`, refuting "raises if and only if the
two values differ". -/
theorem c4_counterexample :
    schemaMerge 3 (.obj [("uniqueItems", .obj [("a", .int 1)])])
        (.obj [("uniqueItems", .obj [("a", .int 2)])]) (.tup [])
      = .ok (.obj [("uniqueItems", .obj [("a", .int 2)])])
    ∧ (JVal.obj [("a", .int 1)]) ≠ (JVal.obj [("a", .int 2)]) := by
  exact ⟨by decide, by decide⟩

/-- Claim C4, amended: for fragments both defining a non-mergeable key
(`uniqueItems` or `insertionOrder`) with values that are not both
mapping-shaped, the merge raises `ConstraintError` exactly when the two
values differ under Python equality, and succeeds carrying the source
value when they are equal (when both values are mappings the merge
recurses into them instead of conflict-checking). -/
theorem c4_amended (fuel : Nat) (hf : 2 ≤ fuel) (t : Dict) (k : String)
    (hk : k = "uniqueItems" ∨ k = "insertionOrder") (a b : JVal) (p : List String)
    (ha : Dict.get t k = some a)
    (hab : ¬(a.isObj = true ∧ b.isObj = true)) :
    (schemaMerge fuel (.obj t) (.obj [(k, b)]) (.tup p)
        = .error (.constraintErr "constraint error TODO") ↔ pyEqB a b = false)
    ∧ (pyEqB a b = true →
        schemaMerge fuel (.obj t) (.obj [(k, b)]) (.tup p) = .ok (.obj (Dict.set t k b))) := by
  obtain ⟨g, rfl⟩ : ∃ g, fuel = g + 2 := ⟨fuel - 2, by omega⟩
  have hrec := schemaMerge_typeErr (g + 1) (by omega) a b (.tup (p ++ [k])) hab
  have hmain : schemaMerge (g + 2) (.obj t) (.obj [(k, b)]) (.tup p)
      = if pyEqB a b = false then .error (.constraintErr "constraint error TODO")
        else .ok (.obj (Dict.set t k b)) := by
    show schemaMergeF (schemaMerge (g + 1)) _ _ _ = _
    simp only [schemaMergeF, exFoldlM, mergeKeyStep]
    have hk1 : ¬(k = "$ref" ∨ k = "type") := by
      rcases hk with rfl | rfl <;> decide
    have hk2 : k ≠ "required" := by
      rcases hk with rfl | rfl <;> decide
    rw [if_neg hk1, ha]
    simp only [pathAppend, hrec]
    rw [if_neg (fun hh : k = "type" ∨ k = "$ref" => hk1 hh.symm), if_neg hk2]
    by_cases hpy : pyEqB a b = false
    · rw [if_pos ⟨hk, hpy⟩, if_pos hpy]
    · rw [if_neg (fun hh : (k = "uniqueItems" ∨ k = "insertionOrder") ∧ pyEqB a b = false =>
        hpy hh.2), if_neg hpy]
  constructor
  · rw [hmain]
    by_cases hpy : pyEqB a b = false
    · rw [if_pos hpy]; exact ⟨fun _ => hpy, fun _ => rfl⟩
    · rw [if_neg hpy]
      exact ⟨fun hh => Except.noConfusion hh, fun hh => absurd hh hpy⟩
  · intro htrue
    rw [hmain, if_neg (by rw [htrue]; decide)]

theorem c4_amended_witness :
    (schemaMerge 2 (.obj [("insertionOrder", .bool true)])
        (.obj [("insertionOrder", .bool false)]) (.tup [])
      = .error (.constraintErr "constraint error TODO")
      ↔ pyEqB (.bool true) (.bool false) = false)
    ∧ (pyEqB (.bool true) (.bool false) = true →
        schemaMerge 2 (.obj [("insertionOrder", .bool true)])
          (.obj [("insertionOrder", .bool false)]) (.tup [])
        = .ok (.obj (Dict.set [("insertionOrder", .bool true)] "insertionOrder" (.bool false)))) :=
  c4_amended 2 (by decide) [("insertionOrder", .bool true)] "insertionOrder" (Or.inr rfl)
    (.bool true) (.bool false) [] (by decide) (by decide)

/-! Lemmas about deduplication, sorting and the string ordering, used to
characterise the `$ref`/`type` union and the `required` union. -/

theorem mem_dedupFirstAux [DecidableEq α] (x : α) :
    ∀ (l seen : List α), x ∈ dedupFirstAux seen l ↔ x ∈ l ∧ x ∉ seen := by
  intro l
  induction l with
  | nil => intro seen; simp [dedupFirstAux]
  | cons a l ih =>
    intro seen
    by_cases ha : a ∈ seen
    · rw [dedupFirstAux, if_pos ha, ih]
      constructor
      · rintro ⟨hx, hs⟩; exact ⟨List.mem_cons_of_mem _ hx, hs⟩
      · rintro ⟨hx, hs⟩
        rcases List.mem_cons.mp hx with rfl | hx
        · exact absurd ha hs
        · exact ⟨hx, hs⟩
    · rw [dedupFirstAux, if_neg ha]
      simp only [List.mem_cons, ih]
      constructor
      · rintro (rfl | ⟨hx, hs⟩)
        · exact ⟨Or.inl rfl, ha⟩
        · exact ⟨Or.inr hx, fun hseen => hs (Or.inr hseen)⟩
      · rintro ⟨rfl | hx, hs⟩
        · exact Or.inl rfl
        · by_cases hxa : x = a
          · exact Or.inl hxa
          · exact Or.inr ⟨hx, fun hmem => hmem.elim hxa hs⟩

theorem mem_dedupFirst [DecidableEq α] (x : α) (l : List α) :
    x ∈ dedupFirst l ↔ x ∈ l := by
  unfold dedupFirst
  rw [mem_dedupFirstAux]
  simp

theorem nodup_dedupFirstAux [DecidableEq α] :
    ∀ (l seen : List α), (dedupFirstAux seen l).Nodup := by
  intro l
  induction l with
  | nil => intro seen; simp [dedupFirstAux]
  | cons a l ih =>
    intro seen
    by_cases ha : a ∈ seen
    · rw [dedupFirstAux, if_pos ha]; exact ih seen
    · rw [dedupFirstAux, if_neg ha]
      refine List.nodup_cons.mpr ⟨?_, ih (a :: seen)⟩
      intro hmem
      exact ((mem_dedupFirstAux a l (a :: seen)).mp hmem).2 (List.mem_cons_self a seen)

theorem nodup_dedupFirst [DecidableEq α] (l : List α) : (dedupFirst l).Nodup :=
  nodup_dedupFirstAux l []

theorem dedupFirstAux_map [DecidableEq α] [DecidableEq β] {f : α → β}
    (hf : Function.Injective f) :
    ∀ (l seen : List α),
      dedupFirstAux (seen.map f) (l.map f) = (dedupFirstAux seen l).map f := by
  intro l
  induction l with
  | nil => intro seen; simp [dedupFirstAux]
  | cons a l ih =>
    intro seen
    have hmem : f a ∈ seen.map f ↔ a ∈ seen := by
      constructor
      · intro h
        obtain ⟨x, hx, hfx⟩ := List.mem_map.mp h
        exact (hf hfx) ▸ hx
      · exact fun h => List.mem_map_of_mem f h
    by_cases ha : a ∈ seen
    · simp only [List.map_cons, dedupFirstAux, if_pos (hmem.mpr ha), if_pos ha, ih]
    · simp only [List.map_cons, dedupFirstAux, if_neg (fun hh => ha (hmem.mp hh)), if_neg ha]
      have hstep := ih (a :: seen)
      rw [List.map_cons] at hstep
      rw [hstep]

theorem str_injective : Function.Injective JVal.str := fun _ _ h => by cases h; rfl

theorem dedupFirst_map_str (l : List String) :
    dedupFirst (l.map JVal.str) = (dedupFirst l).map JVal.str := by
  unfold dedupFirst
  have := dedupFirstAux_map (f := JVal.str) str_injective l []
  simpa using this

theorem allStrings_map : ∀ l : List String, allStrings (l.map JVal.str) = some l := by
  intro l
  induction l with
  | nil => rfl
  | cons a l ih => simp [allStrings, ih, List.map_cons]

theorem all_hashable_map_str (l : List String) :
    (l.map JVal.str).all JVal.hashable = true := by
  induction l with
  | nil => rfl
  | cons a l ih => simp only [List.map_cons, List.all_cons, ih, JVal.hashable, Bool.and_true]

theorem charsLe_iff_not_lex : ∀ x y : List Char, charsLe x y = true ↔ ¬ List.Lex (· < ·) y x := by
  intro x
  induction x with
  | nil =>
    intro y
    exact iff_of_true rfl (List.Lex.not_nil_right _ _)
  | cons a as ih =>
    intro y
    cases y with
    | nil =>
      exact iff_of_false (by simp [charsLe]) (fun h => h List.Lex.nil)
    | cons b bs =>
      rw [charsLe]
      by_cases hab : a = b
      · subst hab
        rw [if_pos rfl, ih bs]
        constructor
        · intro h hlex
          cases hlex with
          | cons h' => exact h h'
          | rel h' => exact absurd h' (lt_irrefl a)
        · intro h hlex; exact h (List.Lex.cons hlex)
      · rw [if_neg hab]
        simp only [decide_eq_true_eq]
        constructor
        · intro h hlex
          cases hlex with
          | cons => exact hab rfl
          | rel h' => exact absurd h (not_lt.mpr (le_of_lt h'))
        · intro h
          rcases lt_trichotomy a b with hlt | heq | hgt
          · exact hlt
          · exact absurd heq hab
          · exact absurd (List.Lex.rel hgt) h

theorem pyStrLeB_iff_le (a b : String) : pyStrLeB a b = true ↔ a ≤ b := by
  have h1 : b < a ↔ List.Lex (· < ·) b.data a.data := by
    rw [String.lt_iff_toList_lt]
    exact Iff.rfl
  rw [pyStrLeB, charsLe_iff_not_lex, ← h1, not_lt]

theorem pyStrLe_total : ∀ a b : String, pyStrLeB a b = true ∨ pyStrLeB b a = true := by
  intro a b
  rcases le_total a b with h | h
  · exact Or.inl ((pyStrLeB_iff_le a b).mpr h)
  · exact Or.inr ((pyStrLeB_iff_le b a).mpr h)

theorem pyStrLe_trans : ∀ a b c : String,
    pyStrLeB a b = true → pyStrLeB b c = true → pyStrLeB a c = true := by
  intro a b c hab hbc
  exact (pyStrLeB_iff_le a c).mpr
    (le_trans ((pyStrLeB_iff_le a b).mp hab) ((pyStrLeB_iff_le b c).mp hbc))

theorem pySortedUnion_req (A B : List String) :
    pySortedUnion (.arr (A.map .str)) (.arr (B.map .str))
      = .ok (.arr ((List.insertionSort (fun x y => pyStrLeB x y = true)
          (dedupFirst (dedupFirst A ++ dedupFirst B))).map JVal.str)) := by
  rw [pySortedUnion]
  simp only [pySet, all_hashable_map_str, if_true]
  rw [dedupFirst_map_str A, dedupFirst_map_str B, ← List.map_append, dedupFirst_map_str,
    allStrings_map]

/-! Claims C5 and C6: `$ref`/`type` unification and the `required`
union. -/

/-- Claim C5: merging a node holding `$ref: a` with a node holding
`type: b` yields a node whose only key is `type`, holding the ordered set
with exactly the members `a` and `b`; no `$ref` key remains. -/
theorem c5_type_ref_union (fuel : Nat) (hf : 2 ≤ fuel) (a b : String) (p : List String) :
    ∃ l : List JVal,
      schemaMerge fuel (.obj [("$ref", .str a)]) (.obj [("type", .str b)]) (.tup p)
        = .ok (.obj [("type", .set l)])
      ∧ ∀ x, x ∈ l ↔ x = JVal.str a ∨ x = JVal.str b := by
  obtain ⟨g, rfl⟩ : ∃ g, fuel = g + 2 := ⟨fuel - 2, by omega⟩
  refine ⟨dedupFirst [JVal.str a, JVal.str b], ?_, ?_⟩
  · have hrec := schemaMerge_typeErr (g + 1) (by omega) (.str a) (.str b)
      (.tup (p ++ ["type"])) (by simp [JVal.isObj])
    show schemaMergeF (schemaMerge (g + 1)) _ _ _ = _
    simp [schemaMergeF, exFoldlM, mergeKeyStep, Dict.get, pyOrOpt, pathAppend, hrec, toSet,
      JVal.hashable, Dict.set, Dict.erase]
  · intro x
    rw [mem_dedupFirst]
    simp

theorem c5_witness :
    ∃ l : List JVal,
      schemaMerge 2 (.obj [("$ref", .str "a")]) (.obj [("type", .str "b")]) (.tup [])
        = .ok (.obj [("type", .set l)])
      ∧ ∀ x, x ∈ l ↔ x = JVal.str "a" ∨ x = JVal.str "b" :=
  c5_type_ref_union 2 (by decide) "a" "b" []

/-- Claim C6: merging two nodes that both define `required` yields a node
whose `required` list is sorted, duplicate-free, and contains exactly the
union of the two operands' name sets. -/
theorem c6_required_union (fuel : Nat) (hf : 2 ≤ fuel) (A B : List String) (p : List String) :
    ∃ r : List String,
      schemaMerge fuel (.obj [("required", .arr (A.map .str))])
          (.obj [("required", .arr (B.map .str))]) (.tup p)
        = .ok (.obj [("required", .arr (r.map JVal.str))])
      ∧ r.Sorted (· ≤ ·) ∧ r.Nodup ∧ (∀ x, x ∈ r ↔ x ∈ A ∨ x ∈ B) := by
  obtain ⟨g, rfl⟩ : ∃ g, fuel = g + 2 := ⟨fuel - 2, by omega⟩
  have hperm := List.perm_insertionSort (fun x y => pyStrLeB x y = true)
    (dedupFirst (dedupFirst A ++ dedupFirst B))
  refine ⟨List.insertionSort (fun x y => pyStrLeB x y = true)
    (dedupFirst (dedupFirst A ++ dedupFirst B)), ?_, ?_, ?_, ?_⟩
  · have hrec := schemaMerge_typeErr (g + 1) (by omega) (.arr (A.map .str))
      (.arr (B.map .str)) (.tup (p ++ ["required"])) (by simp [JVal.isObj])
    show schemaMergeF (schemaMerge (g + 1)) _ _ _ = _
    simp [schemaMergeF, exFoldlM, mergeKeyStep, Dict.get, pathAppend, hrec, pySortedUnion_req,
      Dict.set]
  · haveI : IsTotal String (fun x y => pyStrLeB x y = true) := ⟨pyStrLe_total⟩
    haveI : IsTrans String (fun x y => pyStrLeB x y = true) := ⟨pyStrLe_trans⟩
    have hs := List.sorted_insertionSort (fun x y => pyStrLeB x y = true)
      (dedupFirst (dedupFirst A ++ dedupFirst B))
    exact hs.imp (fun h => (pyStrLeB_iff_le _ _).mp h)
  · exact hperm.nodup_iff.mpr (nodup_dedupFirst _)
  · intro x
    rw [hperm.mem_iff, mem_dedupFirst, List.mem_append, mem_dedupFirst, mem_dedupFirst]

theorem c6_witness :
    ∃ r : List String,
      schemaMerge 2 (.obj [("required", .arr (["b", "a"].map .str))])
          (.obj [("required", .arr (["c", "a"].map .str))]) (.tup [])
        = .ok (.obj [("required", .arr (r.map JVal.str))])
      ∧ r.Sorted (· ≤ ·) ∧ r.Nodup ∧ (∀ x, x ∈ r ↔ x ∈ ["b", "a"] ∨ x ∈ ["c", "a"]) :=
  c6_required_union 2 (by decide) ["b", "a"] ["c", "a"] []

/-! Claims C7 to C10: the per-type generators. -/

/-- Claim C7: whenever the integer strategy compiles, every generated
value is an integer and satisfies the effective bounds: `minimum` when
present, otherwise `exclusiveMinimum + 1` when present, otherwise no
lower bound, and symmetrically `maximum`, else `exclusiveMaximum - 1`,
else no upper bound. -/
theorem c7_integer_bounds (fm : Option JVal → Bool → Option JVal → Bool → JVal → Prop)
    (rm : String → JVal → Prop) (co : Char → Prop) (d : Dict) (s : Strat) (v : JVal)
    (hc : generateIntegerStrategy d = .ok s) (hv : Mem fm rm co s v) :
    ∃ n : Int, v = .int n
      ∧ (∀ m, Dict.get d "minimum" = some (.int m) → m ≤ n)
      ∧ (Dict.get d "minimum" = none →
          ∀ m, Dict.get d "exclusiveMinimum" = some (.int m) → m + 1 ≤ n)
      ∧ (∀ m, Dict.get d "maximum" = some (.int m) → n ≤ m)
      ∧ (Dict.get d "maximum" = none →
          ∀ m, Dict.get d "exclusiveMaximum" = some (.int m) → n ≤ m - 1) := by
  unfold generateIntegerStrategy at hc
  cases hlo : integerMinimum d with
  | error e => rw [hlo] at hc; exact Except.noConfusion hc
  | ok lo =>
    rw [hlo] at hc
    cases hhi : integerMaximum d with
    | error e => rw [hhi] at hc; exact Except.noConfusion hc
    | ok hi =>
      rw [hhi] at hc
      cases hc
      cases hv with
      | intM _ _ n h1 h2 =>
        refine ⟨n, rfl, ?_, ?_, ?_, ?_⟩
        · intro m hm
          apply h1
          unfold integerMinimum at hlo
          rw [hm] at hlo
          cases hlo; rfl
        · intro hnone m hm
          apply h1
          unfold integerMinimum at hlo
          rw [hnone, hm] at hlo
          cases hlo; rfl
        · intro m hm
          apply h2
          unfold integerMaximum at hhi
          rw [hm] at hhi
          cases hhi; rfl
        · intro hnone m hm
          apply h2
          unfold integerMaximum at hhi
          rw [hnone, hm] at hhi
          cases hhi; rfl

theorem c7_witness :
    ∃ n : Int, (JVal.int 3) = .int n
      ∧ (∀ m, Dict.get [("minimum", JVal.int 0), ("maximum", JVal.int 5)] "minimum"
          = some (.int m) → m ≤ n)
      ∧ (Dict.get [("minimum", JVal.int 0), ("maximum", JVal.int 5)] "minimum" = none →
          ∀ m, Dict.get [("minimum", JVal.int 0), ("maximum", JVal.int 5)] "exclusiveMinimum"
            = some (.int m) → m + 1 ≤ n)
      ∧ (∀ m, Dict.get [("minimum", JVal.int 0), ("maximum", JVal.int 5)] "maximum"
          = some (.int m) → n ≤ m)
      ∧ (Dict.get [("minimum", JVal.int 0), ("maximum", JVal.int 5)] "maximum" = none →
          ∀ m, Dict.get [("minimum", JVal.int 0), ("maximum", JVal.int 5)] "exclusiveMaximum"
            = some (.int m) → n ≤ m - 1) :=
  c7_integer_bounds (fun _ _ _ _ _ => False) (fun _ _ => False) (fun _ => False)
    [("minimum", .int 0), ("maximum", .int 5)] (.integersS (some 0) (some 5)) (.int 3)
    (by rfl)
    (Mem.intM (some 0) (some 5) 3
      (fun m hm => by cases hm; decide)
      (fun m hm => by cases hm; decide))

/-- Generated values of a `fixed_dictionaries` strategy compiled from a
`properties` dict: exactly the declared keys, in order, with each value
generated by the corresponding property's compiled strategy. -/
theorem fixedDict_generated (fm : Option JVal → Bool → Option JVal → Bool → JVal → Prop)
    (rm : String → JVal → Prop) (co : Char → Prop)
    (recg : JVal → Except GErr (Strat × JVal)) :
    ∀ (props : List (String × JVal)) (comp : List (String × Strat)) (v : JVal),
      exMapM (fun p => match recg p.2 with
        | .ok sp => .ok (p.1, sp.1)
        | .error e => .error e) props = .ok comp →
      Mem fm rm co (.fixedDictS comp) v →
      ∃ pairs : List (String × JVal), v = .obj pairs
        ∧ pairs.map Prod.fst = props.map Prod.fst
        ∧ List.Forall₂ (fun (ps : String × JVal) (pv : String × JVal) =>
            pv.1 = ps.1 ∧ ∃ st node, recg ps.2 = .ok (st, node) ∧ Mem fm rm co st pv.2)
            props pairs := by
  intro props
  induction props with
  | nil =>
    intro comp v hmap hv
    cases hmap
    cases hv
    exact ⟨[], rfl, rfl, List.Forall₂.nil⟩
  | cons p rest ih =>
    intro comp v hmap hv
    rw [exMapM] at hmap
    cases hrec : recg p.2 with
    | error e => rw [hrec] at hmap; exact Except.noConfusion hmap
    | ok sp =>
      rw [hrec] at hmap
      cases hrest : exMapM (fun p => match recg p.2 with
          | .ok sp => .ok (p.1, sp.1)
          | .error e => .error e) rest with
      | error e => rw [hrest] at hmap; exact Except.noConfusion hmap
      | ok comp' =>
        rw [hrest] at hmap
        cases hmap
        cases hv with
        | fixedCons _ _ _ v1 vs hm1 hmrest =>
          obtain ⟨pairs', heq, hkeys, hfa⟩ := ih comp' (.obj vs) hrest hmrest
          cases heq
          refine ⟨(p.1, v1) :: vs, rfl, ?_, ?_⟩
          · simp [hkeys]
          · exact List.Forall₂.cons ⟨rfl, sp.1, sp.2, by rw [hrec], hm1⟩ hfa

/-- Claim C8: for an object-typed fragment whose object strategy
compiles, an absent `properties` key means every generated value is the
empty mapping; with a `properties` dict, every generated mapping has
exactly the declared property names as keys (no key outside `properties`,
regardless of `required`) and each value is generated by that property's
compiled strategy. -/
theorem c8_object_exact_keys (fm : Option JVal → Bool → Option JVal → Bool → JVal → Prop)
    (rm : String → JVal → Prop) (co : Char → Prop)
    (recg : JVal → Except GErr (Strat × JVal)) (d : Dict) (s : Strat) (v : JVal)
    (hc : generateObjectStrategy recg d = .ok s) (hv : Mem fm rm co s v) :
    (Dict.get d "properties" = none → v = .obj [])
    ∧ (∀ props : List (String × JVal), Dict.get d "properties" = some (.obj props) →
        ∃ pairs : List (String × JVal), v = .obj pairs
          ∧ pairs.map Prod.fst = props.map Prod.fst
          ∧ List.Forall₂ (fun (ps : String × JVal) (pv : String × JVal) =>
              pv.1 = ps.1 ∧ ∃ st node, recg ps.2 = .ok (st, node) ∧ Mem fm rm co st pv.2)
              props pairs) := by
  unfold generateObjectStrategy at hc
  constructor
  · intro hnone
    rw [hnone] at hc
    cases hc
    cases hv
    rfl
  · intro props hprops
    simp only [hprops] at hc
    cases hmap : exMapM (fun p => match recg p.2 with
        | .ok sp => .ok (p.1, sp.1)
        | .error e => .error e) props with
    | error e => rw [hmap] at hc; exact Except.noConfusion hc
    | ok comp =>
      rw [hmap] at hc
      cases hc
      exact fixedDict_generated fm rm co recg props comp v hmap hv

theorem c8_witness :
    (Dict.get [("properties", JVal.obj [("P", .obj [("type", .str "boolean")])])]
        "properties" = none → (JVal.obj [("P", .bool true)]) = .obj [])
    ∧ (∀ props : List (String × JVal),
        Dict.get [("properties", JVal.obj [("P", .obj [("type", .str "boolean")])])]
          "properties" = some (.obj props) →
        ∃ pairs : List (String × JVal), (JVal.obj [("P", .bool true)]) = .obj pairs
          ∧ pairs.map Prod.fst = props.map Prod.fst
          ∧ List.Forall₂ (fun (ps : String × JVal) (pv : String × JVal) =>
              pv.1 = ps.1 ∧ ∃ st node,
                genStrategy (fun _ => none) 2 ps.2 = .ok (st, node)
                ∧ Mem (fun _ _ _ _ _ => False) (fun _ _ => False) (fun _ => False) st pv.2)
              props pairs) :=
  c8_object_exact_keys (fun _ _ _ _ _ => False) (fun _ _ => False) (fun _ => False)
    (genStrategy (fun _ => none) 2)
    [("properties", .obj [("P", .obj [("type", .str "boolean")])])]
    (.fixedDictS [("P", .booleansS)]) (.obj [("P", .bool true)])
    (by rfl)
    (Mem.fixedCons "P" .booleansS [] (.bool true) [] (Mem.boolM true) Mem.fixedNil)

/-- Generated values of a `tuples` strategy compiled from a tuple-form
`items` list: one element per sub-schema, in order. -/
theorem tuples_generated (fm : Option JVal → Bool → Option JVal → Bool → JVal → Prop)
    (rm : String → JVal → Prop) (co : Char → Prop)
    (recg : JVal → Except GErr (Strat × JVal)) :
    ∀ (subs : List JVal) (comp : List Strat) (v : JVal),
      exMapM (fun sc => match recg sc with
        | .ok sp => .ok sp.1
        | .error e => .error e) subs = .ok comp →
      Mem fm rm co (.tuplesS comp) v →
      ∃ l : List JVal, v = .arr l ∧ l.length = subs.length
        ∧ List.Forall₂ (fun (sub : JVal) (el : JVal) =>
            ∃ st node, recg sub = .ok (st, node) ∧ Mem fm rm co st el) subs l := by
  intro subs
  induction subs with
  | nil =>
    intro comp v hmap hv
    cases hmap
    cases hv
    exact ⟨[], rfl, rfl, List.Forall₂.nil⟩
  | cons sc rest ih =>
    intro comp v hmap hv
    rw [exMapM] at hmap
    cases hrec : recg sc with
    | error e => rw [hrec] at hmap; exact Except.noConfusion hmap
    | ok sp =>
      rw [hrec] at hmap
      cases hrest : exMapM (fun sc => match recg sc with
          | .ok sp => .ok sp.1
          | .error e => .error e) rest with
      | error e => rw [hrest] at hmap; exact Except.noConfusion hmap
      | ok comp' =>
        rw [hrest] at hmap
        cases hmap
        cases hv with
        | tuplesCons _ _ v1 vs hm1 hmrest =>
          obtain ⟨l', heq, hlen, hfa⟩ := ih comp' (.arr vs) hrest hmrest
          cases heq
          refine ⟨v1 :: vs, rfl, by simp [hlen], ?_⟩
          exact List.Forall₂.cons ⟨sp.1, sp.2, by rw [hrec], hm1⟩ hfa

/-- Claim C9: for an array-typed fragment whose array strategy compiles:
tuple-form `items` generates sequences of exactly the listed length with
the i-th element from the i-th sub-schema; a single mapping-shaped
`items` generates sequences whose length respects `minItems` (default 0)
and `maxItems` (default unbounded) with every element drawn from that
sub-schema's compiled strategy; with neither `items` nor `contains`, the
generated array is always empty. -/
theorem c9_array_lengths (fm : Option JVal → Bool → Option JVal → Bool → JVal → Prop)
    (rm : String → JVal → Prop) (co : Char → Prop)
    (recg : JVal → Except GErr (Strat × JVal)) (d : Dict) (s : Strat) (v : JVal)
    (hc : generateArrayStrategy recg d = .ok s) (hv : Mem fm rm co s v) :
    (∀ subs : List JVal, Dict.get d "items" = some (.arr subs) →
      ∃ l : List JVal, v = .arr l ∧ l.length = subs.length
        ∧ List.Forall₂ (fun (sub : JVal) (el : JVal) =>
            ∃ st node, recg sub = .ok (st, node) ∧ Mem fm rm co st el) subs l)
    ∧ (∀ props : List (String × JVal), Dict.get d "items" = some (.obj props) →
        ∃ (l : List JVal) (st : Strat) (node : JVal), v = .arr l
          ∧ recg (.obj props) = .ok (st, node)
          ∧ (∀ x ∈ l, Mem fm rm co st x)
          ∧ (∀ m, Dict.get d "minItems" = some (.int m) → m ≤ (l.length : Int))
          ∧ (∀ m, Dict.get d "maxItems" = some (.int m) → (l.length : Int) ≤ m))
    ∧ (Dict.get d "items" = none → Dict.get d "contains" = none → v = .arr []) := by
  unfold generateArrayStrategy at hc
  refine ⟨?_, ?_, ?_⟩
  · intro subs hitems
    simp only [hitems] at hc
    cases hmap : exMapM (fun sc => match recg sc with
        | .ok sp => .ok sp.1
        | .error e => .error e) subs with
    | error e => rw [hmap] at hc; exact Except.noConfusion hc
    | ok comp =>
      rw [hmap] at hc
      cases hc
      exact tuples_generated fm rm co recg subs comp v hmap hv
  · intro props hitems
    simp only [hitems] at hc
    cases hrec : recg (.obj props) with
    | error e => rw [hrec] at hc; exact Except.noConfusion hc
    | ok sp =>
      obtain ⟨st, nd⟩ := sp
      rw [hrec] at hc
      cases hmin : arrMinItems d with
      | error e => rw [hmin] at hc; exact Except.noConfusion hc
      | ok minI =>
        rw [hmin] at hc
        cases hmax : arrMaxItems d with
        | error e => rw [hmax] at hc; exact Except.noConfusion hc
        | ok maxI =>
          rw [hmax] at hc
          cases hc
          cases hv with
          | listsM _ _ _ l hall hlo hhi =>
            refine ⟨l, st, nd, rfl, rfl, hall, ?_, ?_⟩
            · intro m hm
              unfold arrMinItems at hmin
              rw [hm] at hmin
              cases hmin
              exact hlo
            · intro m hm
              unfold arrMaxItems at hmax
              rw [hm] at hmax
              cases hmax
              exact hhi m rfl
  · intro hitems hcont
    simp only [hitems, hcont] at hc
    cases hc
    cases hv with
    | listsM _ _ _ l hall _ _ =>
      cases l with
      | nil => rfl
      | cons x xs => exact absurd (hall x (List.mem_cons_self x xs)) (fun h => by cases h)

theorem c9_witness :
    (∀ subs : List JVal,
      Dict.get [("items", JVal.obj [("type", .str "boolean")]), ("minItems", JVal.int 1),
        ("maxItems", JVal.int 3)] "items" = some (.arr subs) →
      ∃ l : List JVal, (JVal.arr [.bool true, .bool false]) = .arr l ∧ l.length = subs.length
        ∧ List.Forall₂ (fun (sub : JVal) (el : JVal) =>
            ∃ st node, genStrategy (fun _ => none) 2 sub = .ok (st, node)
              ∧ Mem (fun _ _ _ _ _ => False) (fun _ _ => False) (fun _ => False) st el) subs l)
    ∧ (∀ props : List (String × JVal),
        Dict.get [("items", JVal.obj [("type", .str "boolean")]), ("minItems", JVal.int 1),
          ("maxItems", JVal.int 3)] "items" = some (.obj props) →
        ∃ (l : List JVal) (st : Strat) (node : JVal),
          (JVal.arr [.bool true, .bool false]) = .arr l
          ∧ genStrategy (fun _ => none) 2 (.obj props) = .ok (st, node)
          ∧ (∀ x ∈ l, Mem (fun _ _ _ _ _ => False) (fun _ _ => False) (fun _ => False) st x)
          ∧ (∀ m, Dict.get [("items", JVal.obj [("type", .str "boolean")]),
              ("minItems", JVal.int 1), ("maxItems", JVal.int 3)] "minItems"
              = some (.int m) → m ≤ (l.length : Int))
          ∧ (∀ m, Dict.get [("items", JVal.obj [("type", .str "boolean")]),
              ("minItems", JVal.int 1), ("maxItems", JVal.int 3)] "maxItems"
              = some (.int m) → (l.length : Int) ≤ m))
    ∧ (Dict.get [("items", JVal.obj [("type", .str "boolean")]), ("minItems", JVal.int 1),
        ("maxItems", JVal.int 3)] "items" = none →
       Dict.get [("items", JVal.obj [("type", .str "boolean")]), ("minItems", JVal.int 1),
        ("maxItems", JVal.int 3)] "contains" = none →
       (JVal.arr [.bool true, .bool false]) = .arr []) :=
  c9_array_lengths (fun _ _ _ _ _ => False) (fun _ _ => False) (fun _ => False)
    (genStrategy (fun _ => none) 2)
    [("items", .obj [("type", .str "boolean")]), ("minItems", .int 1), ("maxItems", .int 3)]
    (.listsS .booleansS 1 (some 3)) (.arr [.bool true, .bool false])
    (by rfl)
    (Mem.listsM .booleansS 1 (some 3) [.bool true, .bool false]
      (fun x hx => by
        rcases List.mem_cons.mp hx with rfl | hx
        · exact Mem.boolM true
        · rcases List.mem_cons.mp hx with rfl | hx
          · exact Mem.boolM false
          · cases hx)
      (by decide)
      (fun m hm => by cases hm; decide))

theorem lookupFormat_none (fs : String)
    (hn : ¬(fs = "arn" ∨ fs = "uri" ∨ fs = "date-time" ∨ fs = "date" ∨ fs = "time"
      ∨ fs = "email")) :
    lookupFormat STRING_FORMATS fs = none := by
  push_neg at hn
  obtain ⟨h1, h2, h3, h4, h5, h6⟩ := hn
  unfold STRING_FORMATS
  rw [lookupFormat, if_neg (fun h => h1 h.symm),
    lookupFormat, if_neg (fun h => h2 h.symm),
    lookupFormat, if_neg (fun h => h3 h.symm),
    lookupFormat, if_neg (fun h => h4 h.symm),
    lookupFormat, if_neg (fun h => h5 h.symm),
    lookupFormat, if_neg (fun h => h6 h.symm),
    lookupFormat]

/-- Claim C10: a string fragment whose `format` is not one of the six
built-in names fails compilation with the `KeyError` from the
`STRING_FORMATS` lookup (no graceful degradation), and `format` takes
precedence: the failure happens regardless of any `pattern`, `minLength`
or `maxLength` keys. -/
theorem c10_unknown_format (d : Dict) (fs : String)
    (hf : Dict.get d "format" = some (.str fs))
    (hn : ¬(fs = "arn" ∨ fs = "uri" ∨ fs = "date-time" ∨ fs = "date" ∨ fs = "time"
      ∨ fs = "email")) :
    generateStringStrategy d = .error (.keyErr fs) := by
  unfold generateStringStrategy
  simp only [hf]
  rw [lookupFormat_none fs hn]

theorem c10_witness :
    generateStringStrategy [("format", .str "hostname"), ("pattern", .str "^a$"),
      ("minLength", .int 1), ("maxLength", .int 5)] = .error (.keyErr "hostname") :=
  c10_unknown_format
    [("format", .str "hostname"), ("pattern", .str "^a$"), ("minLength", .int 1),
      ("maxLength", .int 5)] "hostname" (by rfl) (by decide)

/-! Sanity checks mirroring the doctests of `schema_merge`. -/

example : schemaMerge 9 (.obj []) (.obj []) (.tup []) = .ok (.obj []) := by decide

example : schemaMerge 9 (.obj [("foo", .str "a")]) (.obj [("foo", .str "b")]) (.tup [])
    = .ok (.obj [("foo", .str "b")]) := by decide

example : schemaMerge 9 (.obj [("required", .arr [.str "b", .str "a"])])
    (.obj [("required", .arr [.str "c", .str "a"])]) (.tup [])
    = .ok (.obj [("required", .arr [.str "a", .str "b", .str "c"])]) := by decide

example : schemaMerge 9 (.obj [("$ref", .str "a")]) (.obj [("foo", .str "b")]) (.tup ["foo"])
    = .ok (.obj [("$ref", .str "a"), ("foo", .str "b")]) := by decide

example : schemaMerge 9 (.obj [("$ref", .str "a")]) (.obj [("type", .str "b")]) (.tup ["foo"])
    = .ok (.obj [("type", .set [.str "a", .str "b"])]) := by decide

example : schemaMerge 9 (.obj [("$ref", .str "a")]) (.obj [("$ref", .str "b")]) (.tup ["foo"])
    = .ok (.obj [("type", .set [.str "a", .str "b"])]) := by decide

example : schemaMerge 9 (.obj [("$ref", .str "a")]) (.obj [("type", .arr [.str "b", .str "c"])]) (.tup ["foo"])
    = .ok (.obj [("type", .set [.str "a", .str "b", .str "c"])]) := by decide

example : schemaMerge 9 (.obj [("type", .arr [.str "a", .str "b"])]) (.obj [("$ref", .str "c")]) (.tup ["foo"])
    = .ok (.obj [("type", .set [.str "a", .str "b", .str "c"])]) := by decide

example : schemaMerge 9 (.obj [("type", .set [.str "a", .str "b"])]) (.obj [("$ref", .str "c")]) (.tup ["foo"])
    = .ok (.obj [("type", .set [.str "a", .str "b", .str "c"])]) := by decide

example : schemaMerge 9 (.obj [("Foo", .obj [("$ref", .str "a")])])
    (.obj [("Foo", .obj [("type", .str "b")])]) (.tup ["foo"])
    = .ok (.obj [("Foo", .obj [("type", .set [.str "a", .str "b"])])]) := by decide

example : schemaMerge 9 (.obj [("type", .str "string")]) (.obj [("type", .str "integer")]) (.tup [])
    = .ok (.obj [("type", .set [.str "string", .str "integer"])]) := by decide

example : schemaMerge 9 (.obj [("uniqueItems", .bool true)]) (.obj [("uniqueItems", .bool false)]) (.tup [])
    = .error (.constraintErr "constraint error TODO") := by decide

example : schemaMerge 9 (.obj [("uniqueItems", .bool true)]) (.obj [("uniqueItems", .bool true)]) (.tup [])
    = .ok (.obj [("uniqueItems", .bool true)]) := by decide

example : schemaMerge 9 (.str "x") (.obj []) (.tup []) = .error .typeErr := by decide

end Cfn
